import Mathlib

/-!
Verification of mlpack's FFT-based 2D convolution
(src/mlpack/methods/ann/convolution_rules/fft_convolution.hpp).

The code computes `output = real(ifft2(fft2(inputPadded) % fft2(filterPadded)))`
and then extracts a sub-window.  We embed the matrices as dense rational
matrices (exact arithmetic: the spec's "up to floating-point rounding"
tolerances become exact equality).  The FFT round-trip composite
`real(ifft2(fft2 A % fft2 B))` is, in exact arithmetic and for real operands of
identical dimensions, exactly the two-dimensional circular convolution of the
operands (the DFT convolution theorem); the spec declares the transform
primitive itself a trusted external collaborator out of scope, so the composite
is embedded by that exact mathematical value.  Everything else (resize,
submatrix read and write, window extraction, the padding geometry) is
translated operation by operation from the source.
-/

/-- A dense 2D matrix of rationals, mirroring `arma::Mat<eT>`: a row count, a
column count and the entries.  Entries are total functions; only indices below
the dimensions are meaningful, and all reads go through `Mat.get`, which
returns 0 out of range. -/
structure Mat where
  n_rows : Nat
  n_cols : Nat
  entry : Nat → Nat → ℚ

/-- Bounds-guarded read: the value at `(i, j)`, or 0 outside the matrix. -/
def Mat.get (A : Mat) (i j : Nat) : ℚ :=
  if i < A.n_rows ∧ j < A.n_cols then A.entry i j else 0

/-- Two matrices are equivalent when they have the same shape and the same
entries everywhere in range.  This is observational equality for `Mat` (the
`entry` functions may differ out of range). -/
def Mat.Equiv (A B : Mat) : Prop :=
  A.n_rows = B.n_rows ∧ A.n_cols = B.n_cols ∧
    ∀ i, i < A.n_rows → ∀ j, j < A.n_cols → A.get i j = B.get i j

instance (A B : Mat) : Decidable (Mat.Equiv A B) := by
  unfold Mat.Equiv
  infer_instance

/-- `arma::Mat::resize(r, c)`: keep each element at its (row, column) position,
truncate rows/columns beyond the new shape, zero-fill grown area. -/
def Mat.resize (A : Mat) (r c : Nat) : Mat :=
  ⟨r, c, fun i j => A.get i j⟩

/-- `arma::zeros<arma::Mat<eT>>(r, c)`. -/
def Mat.zeros (r c : Nat) : Mat :=
  ⟨r, c, fun _ _ => 0⟩

/-- `A.submat(r1, c1, r2, c2)`: the sub-matrix with inclusive corner indices,
of shape `(r2 - r1 + 1, c2 - c1 + 1)`. -/
def Mat.submat (A : Mat) (r1 c1 r2 c2 : Nat) : Mat :=
  ⟨r2 - r1 + 1, c2 - c1 + 1, fun i j => A.get (r1 + i) (c1 + j)⟩

/-- `A.submat(r1, c1, r2, c2) = B`: overwrite the inclusive sub-window of `A`
with `B`, leaving the rest of `A` unchanged. -/
def Mat.submatSet (A : Mat) (r1 c1 r2 c2 : Nat) (B : Mat) : Mat :=
  ⟨A.n_rows, A.n_cols, fun i j =>
    if r1 ≤ i ∧ i ≤ r2 ∧ c1 ≤ j ∧ j ≤ c2 then B.get (i - r1) (j - c1)
    else A.get i j⟩

/-- Exact-arithmetic value of `arma::real(ifft2(fft2(A) % fft2(B)))` for real
operands of identical shape: by the DFT convolution theorem this composite is
exactly the two-dimensional circular convolution over `A`'s shape.  The spec
treats the transform primitive as a trusted external collaborator, so this
single mathematical fact is the embedding of the round-trip. -/
def fftProductRoundTrip (A B : Mat) : Mat :=
  ⟨A.n_rows, A.n_cols, fun i j =>
    ∑ k in Finset.range A.n_rows, ∑ l in Finset.range A.n_cols,
      A.get k l *
        B.get ((i + A.n_rows - k) % A.n_rows) ((j + A.n_cols - l) % A.n_cols)⟩

/-- `FFTConvolution<ValidConvolution, padLastDim>::Convolution`, translated
line by line from fft_convolution.hpp (lines 53-68): copy and optionally pad
the input, resize the filter to the working shape, take the FFT round-trip,
then extract `submat(filter.n_rows - 1, filter.n_cols - 1, input.n_rows - 1,
input.n_cols - 1)`. -/
def validConvolution (padLastDim : Bool) (input filter : Mat) : Mat :=
  let inputPadded :=
    if padLastDim then Mat.resize input input.n_rows (input.n_cols + 1)
    else input
  let filterPadded := Mat.resize filter inputPadded.n_rows inputPadded.n_cols
  let output := fftProductRoundTrip inputPadded filterPadded
  Mat.submat output (filter.n_rows - 1) (filter.n_cols - 1)
    (input.n_rows - 1) (input.n_cols - 1)

/-- `FFTConvolution<FullConvolution, padLastDim>::Convolution`, translated line
by line from fft_convolution.hpp (lines 91-115): working shape
`(input.n_rows + 2*(filter.n_rows-1), input.n_cols + 2*(filter.n_cols-1))`
(one more column when `padLastDim`), input placed into a zero working buffer at
offset `(filter.n_rows - 1, filter.n_cols - 1)`, filter resized to the working
shape, FFT round-trip, then extraction of
`submat(filter.n_rows - 1, filter.n_cols - 1,
2*(filter.n_rows-1) + input.n_rows - 1, 2*(filter.n_cols-1) + input.n_cols - 1)`. -/
def fullConvolution (padLastDim : Bool) (input filter : Mat) : Mat :=
  let outputRows := input.n_rows + 2 * (filter.n_rows - 1)
  let outputCols :=
    if padLastDim then input.n_cols + 2 * (filter.n_cols - 1) + 1
    else input.n_cols + 2 * (filter.n_cols - 1)
  let inputPadded :=
    Mat.submatSet (Mat.zeros outputRows outputCols)
      (filter.n_rows - 1) (filter.n_cols - 1)
      (filter.n_rows - 1 + input.n_rows - 1)
      (filter.n_cols - 1 + input.n_cols - 1) input
  let filterPadded := Mat.resize filter outputRows outputCols
  let output := fftProductRoundTrip inputPadded filterPadded
  Mat.submat output (filter.n_rows - 1) (filter.n_cols - 1)
    (2 * (filter.n_rows - 1) + input.n_rows - 1)
    (2 * (filter.n_cols - 1) + input.n_cols - 1)

/-- `A.submat(r1, c1, r2, c2)` with Armadillo's debug bounds check made
explicit: `none` models the `std::logic_error` thrown when
`r1 > r2 || c1 > c2 || r2 >= n_rows || c2 >= n_cols`. -/
def Mat.submatChecked (A : Mat) (r1 c1 r2 c2 : Nat) : Option Mat :=
  if r1 ≤ r2 ∧ c1 ≤ c2 ∧ r2 < A.n_rows ∧ c2 < A.n_cols then
    some (A.submat r1 c1 r2 c2)
  else none

/-- Sub-window assignment with Armadillo's debug checks made explicit: bounds
of the window inside `A` and shape conformance of `B` with the window. -/
def Mat.submatSetChecked (A : Mat) (r1 c1 r2 c2 : Nat) (B : Mat) :
    Option Mat :=
  if r1 ≤ r2 ∧ c1 ≤ c2 ∧ r2 < A.n_rows ∧ c2 < A.n_cols ∧
      B.n_rows = r2 - r1 + 1 ∧ B.n_cols = c2 - c1 + 1 then
    some (A.submatSet r1 c1 r2 c2 B)
  else none

/-- The valid-mode call with its mutation order and failure point made
explicit.  The C++ body first assigns the working-size FFT result to the
`output` reference (line 62) and only then re-assigns `output` to the
extracted window (line 67); if that extraction's bounds check throws, the call
fails with `output` still holding the un-extracted working-size buffer.
`Except.ok` carries the final output of a completed call, `Except.error`
carries what the `output` parameter holds at the point of failure. -/
def validConvolutionRun (padLastDim : Bool) (input filter : Mat) :
    Except Mat Mat :=
  let inputPadded :=
    if padLastDim then Mat.resize input input.n_rows (input.n_cols + 1)
    else input
  let filterPadded := Mat.resize filter inputPadded.n_rows inputPadded.n_cols
  let output := fftProductRoundTrip inputPadded filterPadded
  match Mat.submatChecked output (filter.n_rows - 1) (filter.n_cols - 1)
      (input.n_rows - 1) (input.n_cols - 1) with
  | some o => Except.ok o
  | none => Except.error output

/-- The full-mode call with its mutation order and failure points made
explicit.  `output0` is whatever the caller's `output` matrix held before the
call.  A failure of the placement check (line 100) happens before `output` is
ever written, so it leaves `output0`; a failure of the extraction check (line
113) happens after line 108 assigned the working-size FFT result to `output`. -/
def fullConvolutionRun (padLastDim : Bool) (input filter output0 : Mat) :
    Except Mat Mat :=
  let outputRows := input.n_rows + 2 * (filter.n_rows - 1)
  let outputCols :=
    if padLastDim then input.n_cols + 2 * (filter.n_cols - 1) + 1
    else input.n_cols + 2 * (filter.n_cols - 1)
  match Mat.submatSetChecked (Mat.zeros outputRows outputCols)
      (filter.n_rows - 1) (filter.n_cols - 1)
      (filter.n_rows - 1 + input.n_rows - 1)
      (filter.n_cols - 1 + input.n_cols - 1) input with
  | none => Except.error output0
  | some inputPadded =>
    let filterPadded := Mat.resize filter outputRows outputCols
    let output := fftProductRoundTrip inputPadded filterPadded
    match Mat.submatChecked output (filter.n_rows - 1) (filter.n_cols - 1)
        (2 * (filter.n_rows - 1) + input.n_rows - 1)
        (2 * (filter.n_cols - 1) + input.n_cols - 1) with
    | some o => Except.ok o
    | none => Except.error output

/-- Direct spatial-domain valid-mode linear convolution, written from the
spec's words: output shape `(m - p + 1, n - q + 1)`, each output entry the
single fully-overlapping window sum
`∑ a < p, ∑ b < q, filter(a,b) * input(i + (p-1) - a, j + (q-1) - b)`. -/
def directValidConv (input filter : Mat) : Mat :=
  ⟨input.n_rows - filter.n_rows + 1, input.n_cols - filter.n_cols + 1,
   fun i j =>
     ∑ a in Finset.range filter.n_rows, ∑ b in Finset.range filter.n_cols,
       filter.get a b *
         input.get (i + (filter.n_rows - 1 - a)) (j + (filter.n_cols - 1 - b))⟩

/-- Direct spatial-domain full-mode linear convolution, written from the
spec's words: output shape `(m + p - 1, n + q - 1)`, entry `(i,j)` equal to
`∑ a < p, ∑ b < q, filter(a,b) * input(i - a, j - b)` with out-of-range input
positions contributing zero. -/
def directFullConv (input filter : Mat) : Mat :=
  ⟨input.n_rows + filter.n_rows - 1, input.n_cols + filter.n_cols - 1,
   fun i j =>
     ∑ a in Finset.range filter.n_rows, ∑ b in Finset.range filter.n_cols,
       filter.get a b *
         (if a ≤ i ∧ b ≤ j then input.get (i - a) (j - b) else 0)⟩

/-- The 3×3 all-ones input of the spec's concrete scenario. -/
def onesInput3 : Mat := ⟨3, 3, fun _ _ => 1⟩

/-- The 2×2 all-ones filter of the spec's concrete scenario. -/
def onesFilter2 : Mat := ⟨2, 2, fun _ _ => 1⟩

/-- Expected valid-mode result of the concrete scenario: 2×2, every entry 4. -/
def validOnesExpected : Mat := ⟨2, 2, fun _ _ => 4⟩

/-- Expected full-mode result of the concrete scenario: 4×4 with corners 1,
edges 2, center 4. -/
def fullOnesExpected : Mat :=
  ⟨4, 4, fun i j => (if i = 0 ∨ i = 3 then 1 else 2) *
    (if j = 0 ∨ j = 3 then 1 else 2)⟩

/-- The 1×1 filter holding the value 1. -/
def unitFilter : Mat := ⟨1, 1, fun _ _ => 1⟩

/-- A small sample input used to instantiate theorems with hypotheses. -/
def sampleInput : Mat := ⟨2, 4, fun i j => (i : ℚ) * 4 + j + 1⟩

/-- A small sample filter used to instantiate theorems with hypotheses. -/
def sampleFilter : Mat := ⟨2, 2, fun i j => (i : ℚ) * 2 + j⟩

/-- The same logical 2×2 filter as `sampleFilter`, with a different entry
function outside the matrix's range. -/
def altSampleFilter : Mat :=
  ⟨2, 2, fun i j => if i < 2 ∧ j < 2 then (i : ℚ) * 2 + j else 99⟩

/-- A 1×2 input whose rows are fewer than `oversizeFilter`'s: a valid-mode
contract violation. -/
def shortInput : Mat := ⟨1, 2, fun _ _ => 1⟩

/-- A 2×2 filter taller than `shortInput`. -/
def oversizeFilter : Mat := ⟨2, 2, fun _ _ => 1⟩

lemma Mat.get_eq_zero_of_rows_le (A : Mat) (i j : Nat) (h : A.n_rows ≤ i) :
    A.get i j = 0 := by
  unfold Mat.get
  split_ifs with h2
  · omega
  · rfl

lemma Mat.get_eq_zero_of_cols_le (A : Mat) (i j : Nat) (h : A.n_cols ≤ j) :
    A.get i j = 0 := by
  unfold Mat.get
  split_ifs with h2
  · omega
  · rfl

lemma Mat.resize_get (A : Mat) (r c i j : Nat) :
    (A.resize r c).get i j = if i < r ∧ j < c then A.get i j else 0 := rfl

/-- Resizing to a larger shape does not change the guarded read anywhere. -/
lemma Mat.resize_get_of_le (A : Mat) (r c i j : Nat)
    (hr : A.n_rows ≤ r) (hc : A.n_cols ≤ c) :
    (A.resize r c).get i j = A.get i j := by
  rw [Mat.resize_get]
  split_ifs with h
  · rfl
  · unfold Mat.get
    split_ifs with h2
    · exact absurd ⟨lt_of_lt_of_le h2.1 hr, lt_of_lt_of_le h2.2 hc⟩ h
    · rfl

/-- One-dimensional core of the window-extraction argument: in a circular
convolution of length `R` evaluated at position `u` with `p - 1 ≤ u < R`, and
a kernel `g` supported on `[0, p)`, the wrap-around terms vanish and the sum
reindexes to the linear-convolution window `a = u - k ∈ [0, p)`. -/
lemma sum_circ_reindex (R p u : Nat) (hpR : p ≤ R) (hpu : p - 1 ≤ u)
    (huR : u < R) (f g : Nat → ℚ) (hg : ∀ r, p ≤ r → g r = 0) :
    ∑ k in Finset.range R, f k * g ((u + R - k) % R)
      = ∑ a in Finset.range p, f (u - a) * g a := by
  have himg : (Finset.range p).image (fun a => u - a) ⊆ Finset.range R := by
    intro k hk
    simp only [Finset.mem_image, Finset.mem_range] at hk
    obtain ⟨a, _, rfl⟩ := hk
    exact Finset.mem_range.mpr (lt_of_le_of_lt (Nat.sub_le u a) huR)
  have hvanish : ∀ k ∈ Finset.range R,
      k ∉ (Finset.range p).image (fun a => u - a) →
      f k * g ((u + R - k) % R) = 0 := by
    intro k hkR hk
    simp only [Finset.mem_range] at hkR
    simp only [Finset.mem_image, Finset.mem_range, not_exists, not_and] at hk
    have hmod : p ≤ (u + R - k) % R := by
      by_cases hku : k ≤ u
      · have h4 : ¬ (u - k < p) := fun hcon => hk (u - k) hcon (by omega)
        have h1 : u + R - k = (u - k) + R := by omega
        rw [h1, Nat.add_mod_right, Nat.mod_eq_of_lt (show u - k < R by omega)]
        omega
      · rw [Nat.mod_eq_of_lt (show u + R - k < R by omega)]
        omega
    rw [hg _ hmod, mul_zero]
  have hinj : ∀ a ∈ Finset.range p, ∀ b ∈ Finset.range p,
      u - a = u - b → a = b := by
    intro a ha b hb hab
    simp only [Finset.mem_range] at ha hb
    omega
  rw [← Finset.sum_subset himg hvanish, Finset.sum_image hinj]
  refine Finset.sum_congr rfl ?_
  intro a ha
  simp only [Finset.mem_range] at ha
  have h1 : u + R - (u - a) = R + a := by omega
  have h2 : (R + a) % R = a := by
    rw [Nat.add_mod_left]
    exact Nat.mod_eq_of_lt (lt_of_lt_of_le ha hpR)
  rw [h1, h2]

/-- Two-dimensional version: the circular-convolution entry at `(u, v)` with a
kernel supported on `[0,p) × [0,q)` reindexes to the `p × q` window sum. -/
lemma circ_entry_reindex (R C p q u v : Nat) (A G : Nat → Nat → ℚ)
    (hpR : p ≤ R) (hqC : q ≤ C) (hpu : p - 1 ≤ u) (huR : u < R)
    (hqv : q - 1 ≤ v) (hvC : v < C)
    (hGrow : ∀ r s, p ≤ r → G r s = 0)
    (hGcol : ∀ r s, q ≤ s → G r s = 0) :
    (∑ k in Finset.range R, ∑ l in Finset.range C,
        A k l * G ((u + R - k) % R) ((v + C - l) % C))
      = ∑ a in Finset.range p, ∑ b in Finset.range q,
          A (u - a) (v - b) * G a b := by
  have step1 : ∀ k,
      (∑ l in Finset.range C, A k l * G ((u + R - k) % R) ((v + C - l) % C))
        = ∑ b in Finset.range q, A k (v - b) * G ((u + R - k) % R) b :=
    fun k => sum_circ_reindex C q v hqC hqv hvC (fun l => A k l)
      (fun s => G ((u + R - k) % R) s) (fun s hs => hGcol _ s hs)
  calc (∑ k in Finset.range R, ∑ l in Finset.range C,
          A k l * G ((u + R - k) % R) ((v + C - l) % C))
      = ∑ k in Finset.range R, ∑ b in Finset.range q,
          A k (v - b) * G ((u + R - k) % R) b :=
        Finset.sum_congr rfl (fun k _ => step1 k)
    _ = ∑ b in Finset.range q, ∑ k in Finset.range R,
          A k (v - b) * G ((u + R - k) % R) b := Finset.sum_comm
    _ = ∑ b in Finset.range q, ∑ a in Finset.range p,
          A (u - a) (v - b) * G a b :=
        Finset.sum_congr rfl (fun b _ => sum_circ_reindex R p u hpR hpu huR
          (fun k => A k (v - b)) (fun r => G r b) (fun r hr => hGrow r b hr))
    _ = ∑ a in Finset.range p, ∑ b in Finset.range q,
          A (u - a) (v - b) * G a b := Finset.sum_comm

/-- Reading the FFT round-trip of a working buffer `P` against the filter
resized to `P`'s shape, at a position at least `(p-1, q-1)`: the circular
entry is exactly the `p × q` linear window sum over `P`. -/
lemma roundTrip_resizedFilter_get (P filter : Mat) (u v : Nat)
    (huR : u < P.n_rows) (hvC : v < P.n_cols)
    (hpR : filter.n_rows ≤ P.n_rows) (hqC : filter.n_cols ≤ P.n_cols)
    (hpu : filter.n_rows - 1 ≤ u) (hqv : filter.n_cols - 1 ≤ v) :
    (fftProductRoundTrip P (Mat.resize filter P.n_rows P.n_cols)).get u v
      = ∑ a in Finset.range filter.n_rows, ∑ b in Finset.range filter.n_cols,
          P.get (u - a) (v - b) * filter.get a b := by
  have h1 : (fftProductRoundTrip P (Mat.resize filter P.n_rows P.n_cols)).get u v
      = ∑ k in Finset.range P.n_rows, ∑ l in Finset.range P.n_cols,
          P.get k l * (Mat.resize filter P.n_rows P.n_cols).get
            ((u + P.n_rows - k) % P.n_rows) ((v + P.n_cols - l) % P.n_cols) := by
    show (if u < P.n_rows ∧ v < P.n_cols then
        ∑ k in Finset.range P.n_rows, ∑ l in Finset.range P.n_cols,
          P.get k l * (Mat.resize filter P.n_rows P.n_cols).get
            ((u + P.n_rows - k) % P.n_rows) ((v + P.n_cols - l) % P.n_cols)
      else 0) = _
    rw [if_pos ⟨huR, hvC⟩]
  have h2 : ∀ k l, (Mat.resize filter P.n_rows P.n_cols).get k l
      = filter.get k l :=
    fun k l => Mat.resize_get_of_le filter P.n_rows P.n_cols k l hpR hqC
  rw [h1]
  have h3 : (∑ k in Finset.range P.n_rows, ∑ l in Finset.range P.n_cols,
      P.get k l * (Mat.resize filter P.n_rows P.n_cols).get
        ((u + P.n_rows - k) % P.n_rows) ((v + P.n_cols - l) % P.n_cols))
      = ∑ k in Finset.range P.n_rows, ∑ l in Finset.range P.n_cols,
      P.get k l * filter.get
        ((u + P.n_rows - k) % P.n_rows) ((v + P.n_cols - l) % P.n_cols) :=
    Finset.sum_congr rfl (fun k _ => Finset.sum_congr rfl
      (fun l _ => by rw [h2]))
  rw [h3]
  exact circ_entry_reindex P.n_rows P.n_cols filter.n_rows filter.n_cols u v
    (fun k l => P.get k l) (fun r s => filter.get r s)
    hpR hqC hpu huR hqv hvC
    (fun r s hr => Mat.get_eq_zero_of_rows_le filter r s hr)
    (fun r s hs => Mat.get_eq_zero_of_cols_le filter r s hs)

/-- In-range entries of the valid-mode output: the extracted window entry at
`(i, j)` is the `p × q` linear window sum over the input, for either value of
`padLastDim`. -/
lemma validConvolution_get (pad : Bool) (input filter : Mat)
    (hp : 1 ≤ filter.n_rows) (hq : 1 ≤ filter.n_cols)
    (hpm : filter.n_rows ≤ input.n_rows) (hqn : filter.n_cols ≤ input.n_cols)
    (i j : Nat) (hi : i < input.n_rows - filter.n_rows + 1)
    (hj : j < input.n_cols - filter.n_cols + 1) :
    (validConvolution pad input filter).get i j
      = ∑ a in Finset.range filter.n_rows, ∑ b in Finset.range filter.n_cols,
          input.get (filter.n_rows - 1 + i - a) (filter.n_cols - 1 + j - b) *
            filter.get a b := by
  cases pad with
  | false =>
    have h1 : (validConvolution false input filter).get i j
        = (fftProductRoundTrip input
            (Mat.resize filter input.n_rows input.n_cols)).get
            (filter.n_rows - 1 + i) (filter.n_cols - 1 + j) := by
      show (if i < (input.n_rows - 1) - (filter.n_rows - 1) + 1 ∧
            j < (input.n_cols - 1) - (filter.n_cols - 1) + 1 then
          (fftProductRoundTrip input
            (Mat.resize filter input.n_rows input.n_cols)).get
            (filter.n_rows - 1 + i) (filter.n_cols - 1 + j)
        else 0) = _
      rw [if_pos ⟨by omega, by omega⟩]
    rw [h1, roundTrip_resizedFilter_get input filter
      (filter.n_rows - 1 + i) (filter.n_cols - 1 + j)
      (by omega) (by omega) hpm hqn (by omega) (by omega)]
  | true =>
    have h1 : (validConvolution true input filter).get i j
        = (fftProductRoundTrip
            (Mat.resize input input.n_rows (input.n_cols + 1))
            (Mat.resize filter input.n_rows (input.n_cols + 1))).get
            (filter.n_rows - 1 + i) (filter.n_cols - 1 + j) := by
      show (if i < (input.n_rows - 1) - (filter.n_rows - 1) + 1 ∧
            j < (input.n_cols - 1) - (filter.n_cols - 1) + 1 then
          (fftProductRoundTrip
            (Mat.resize input input.n_rows (input.n_cols + 1))
            (Mat.resize filter input.n_rows (input.n_cols + 1))).get
            (filter.n_rows - 1 + i) (filter.n_cols - 1 + j)
        else 0) = _
      rw [if_pos ⟨by omega, by omega⟩]
    rw [h1]
    refine Eq.trans (roundTrip_resizedFilter_get
      (Mat.resize input input.n_rows (input.n_cols + 1)) filter
      (filter.n_rows - 1 + i) (filter.n_cols - 1 + j)
      (show filter.n_rows - 1 + i < input.n_rows by omega)
      (show filter.n_cols - 1 + j < input.n_cols + 1 by omega)
      (show filter.n_rows ≤ input.n_rows by omega)
      (show filter.n_cols ≤ input.n_cols + 1 by omega)
      (by omega) (by omega)) ?_
    refine Finset.sum_congr rfl (fun a _ => Finset.sum_congr rfl (fun b _ => ?_))
    rw [Mat.resize_get_of_le input input.n_rows (input.n_cols + 1) _ _
      (le_refl _) (Nat.le_succ _)]

lemma Mat.zeros_get (R C i j : Nat) : (Mat.zeros R C).get i j = 0 := by
  unfold Mat.get Mat.zeros
  split_ifs <;> rfl

/-- Reading the zero working buffer after the input has been written into the
window `(r1, c1)..(r2, c2)`: the input value shifted back, or zero. -/
lemma zeros_submatSet_get (R C r1 c1 r2 c2 : Nat) (B : Mat) (i j : Nat)
    (hr2 : r2 < R) (hc2 : c2 < C) :
    ((Mat.zeros R C).submatSet r1 c1 r2 c2 B).get i j
      = if r1 ≤ i ∧ i ≤ r2 ∧ c1 ≤ j ∧ j ≤ c2 then B.get (i - r1) (j - c1)
        else 0 := by
  show (if i < R ∧ j < C then
      (if r1 ≤ i ∧ i ≤ r2 ∧ c1 ≤ j ∧ j ≤ c2 then B.get (i - r1) (j - c1)
       else (Mat.zeros R C).get i j)
    else 0) = _
  by_cases h : i < R ∧ j < C
  · rw [if_pos h, Mat.zeros_get]
  · rw [if_neg h, if_neg (by omega)]

/-- In-range entries of the full-mode output: the extracted window entry at
`(i, j)` is the any-overlap linear window sum over the input, for either value
of `padLastDim`. -/
lemma fullConvolution_get (pad : Bool) (input filter : Mat)
    (hm : 1 ≤ input.n_rows) (hn : 1 ≤ input.n_cols)
    (hp : 1 ≤ filter.n_rows) (hq : 1 ≤ filter.n_cols)
    (i j : Nat) (hi : i < input.n_rows + filter.n_rows - 1)
    (hj : j < input.n_cols + filter.n_cols - 1) :
    (fullConvolution pad input filter).get i j
      = ∑ a in Finset.range filter.n_rows, ∑ b in Finset.range filter.n_cols,
          (if a ≤ i ∧ b ≤ j then input.get (i - a) (j - b) else 0) *
            filter.get a b := by
  have hterm : ∀ a b : Nat, a < filter.n_rows → b < filter.n_cols →
      ∀ C : Nat, input.n_cols + 2 * (filter.n_cols - 1) ≤ C →
      ((Mat.zeros (input.n_rows + 2 * (filter.n_rows - 1)) C).submatSet
          (filter.n_rows - 1) (filter.n_cols - 1)
          (filter.n_rows - 1 + input.n_rows - 1)
          (filter.n_cols - 1 + input.n_cols - 1) input).get
        (filter.n_rows - 1 + i - a) (filter.n_cols - 1 + j - b)
      = (if a ≤ i ∧ b ≤ j then input.get (i - a) (j - b) else 0) := by
    intro a b ha hb C hCge
    rw [zeros_submatSet_get _ _ _ _ _ _ input _ _ (by omega) (by omega)]
    by_cases hab : a ≤ i ∧ b ≤ j
    · by_cases hin : i - a < input.n_rows ∧ j - b < input.n_cols
      · rw [if_pos (by omega), if_pos hab]
        have e1 : filter.n_rows - 1 + i - a - (filter.n_rows - 1) = i - a := by
          omega
        have e2 : filter.n_cols - 1 + j - b - (filter.n_cols - 1) = j - b := by
          omega
        rw [e1, e2]
      · rw [if_neg (by omega), if_pos hab]
        rcases Nat.lt_or_ge (i - a) input.n_rows with h1 | h1
        · have h2 : input.n_cols ≤ j - b := by omega
          rw [Mat.get_eq_zero_of_cols_le _ _ _ h2]
        · rw [Mat.get_eq_zero_of_rows_le _ _ _ h1]
    · rw [if_neg (by omega), if_neg hab]
  cases pad with
  | false =>
    have h1 : (fullConvolution false input filter).get i j
        = (fftProductRoundTrip
            ((Mat.zeros (input.n_rows + 2 * (filter.n_rows - 1))
                (input.n_cols + 2 * (filter.n_cols - 1))).submatSet
              (filter.n_rows - 1) (filter.n_cols - 1)
              (filter.n_rows - 1 + input.n_rows - 1)
              (filter.n_cols - 1 + input.n_cols - 1) input)
            (Mat.resize filter (input.n_rows + 2 * (filter.n_rows - 1))
              (input.n_cols + 2 * (filter.n_cols - 1)))).get
            (filter.n_rows - 1 + i) (filter.n_cols - 1 + j) := by
      show (if i < (2 * (filter.n_rows - 1) + input.n_rows - 1) -
              (filter.n_rows - 1) + 1 ∧
            j < (2 * (filter.n_cols - 1) + input.n_cols - 1) -
              (filter.n_cols - 1) + 1 then
          (fftProductRoundTrip
            ((Mat.zeros (input.n_rows + 2 * (filter.n_rows - 1))
                (input.n_cols + 2 * (filter.n_cols - 1))).submatSet
              (filter.n_rows - 1) (filter.n_cols - 1)
              (filter.n_rows - 1 + input.n_rows - 1)
              (filter.n_cols - 1 + input.n_cols - 1) input)
            (Mat.resize filter (input.n_rows + 2 * (filter.n_rows - 1))
              (input.n_cols + 2 * (filter.n_cols - 1)))).get
            (filter.n_rows - 1 + i) (filter.n_cols - 1 + j)
        else 0) = _
      rw [if_pos ⟨by omega, by omega⟩]
    rw [h1]
    refine Eq.trans (roundTrip_resizedFilter_get
      ((Mat.zeros (input.n_rows + 2 * (filter.n_rows - 1))
          (input.n_cols + 2 * (filter.n_cols - 1))).submatSet
        (filter.n_rows - 1) (filter.n_cols - 1)
        (filter.n_rows - 1 + input.n_rows - 1)
        (filter.n_cols - 1 + input.n_cols - 1) input) filter
      (filter.n_rows - 1 + i) (filter.n_cols - 1 + j)
      (show filter.n_rows - 1 + i < input.n_rows + 2 * (filter.n_rows - 1)
        by omega)
      (show filter.n_cols - 1 + j < input.n_cols + 2 * (filter.n_cols - 1)
        by omega)
      (show filter.n_rows ≤ input.n_rows + 2 * (filter.n_rows - 1) by omega)
      (show filter.n_cols ≤ input.n_cols + 2 * (filter.n_cols - 1) by omega)
      (by omega) (by omega)) ?_
    refine Finset.sum_congr rfl (fun a ha => Finset.sum_congr rfl
      (fun b hb => ?_))
    simp only [Finset.mem_range] at ha hb
    rw [hterm a b ha hb _ (le_refl _)]
  | true =>
    have h1 : (fullConvolution true input filter).get i j
        = (fftProductRoundTrip
            ((Mat.zeros (input.n_rows + 2 * (filter.n_rows - 1))
                (input.n_cols + 2 * (filter.n_cols - 1) + 1)).submatSet
              (filter.n_rows - 1) (filter.n_cols - 1)
              (filter.n_rows - 1 + input.n_rows - 1)
              (filter.n_cols - 1 + input.n_cols - 1) input)
            (Mat.resize filter (input.n_rows + 2 * (filter.n_rows - 1))
              (input.n_cols + 2 * (filter.n_cols - 1) + 1))).get
            (filter.n_rows - 1 + i) (filter.n_cols - 1 + j) := by
      show (if i < (2 * (filter.n_rows - 1) + input.n_rows - 1) -
              (filter.n_rows - 1) + 1 ∧
            j < (2 * (filter.n_cols - 1) + input.n_cols - 1) -
              (filter.n_cols - 1) + 1 then
          (fftProductRoundTrip
            ((Mat.zeros (input.n_rows + 2 * (filter.n_rows - 1))
                (input.n_cols + 2 * (filter.n_cols - 1) + 1)).submatSet
              (filter.n_rows - 1) (filter.n_cols - 1)
              (filter.n_rows - 1 + input.n_rows - 1)
              (filter.n_cols - 1 + input.n_cols - 1) input)
            (Mat.resize filter (input.n_rows + 2 * (filter.n_rows - 1))
              (input.n_cols + 2 * (filter.n_cols - 1) + 1))).get
            (filter.n_rows - 1 + i) (filter.n_cols - 1 + j)
        else 0) = _
      rw [if_pos ⟨by omega, by omega⟩]
    rw [h1]
    refine Eq.trans (roundTrip_resizedFilter_get
      ((Mat.zeros (input.n_rows + 2 * (filter.n_rows - 1))
          (input.n_cols + 2 * (filter.n_cols - 1) + 1)).submatSet
        (filter.n_rows - 1) (filter.n_cols - 1)
        (filter.n_rows - 1 + input.n_rows - 1)
        (filter.n_cols - 1 + input.n_cols - 1) input) filter
      (filter.n_rows - 1 + i) (filter.n_cols - 1 + j)
      (show filter.n_rows - 1 + i < input.n_rows + 2 * (filter.n_rows - 1)
        by omega)
      (show filter.n_cols - 1 + j < input.n_cols + 2 * (filter.n_cols - 1) + 1
        by omega)
      (show filter.n_rows ≤ input.n_rows + 2 * (filter.n_rows - 1) by omega)
      (show filter.n_cols ≤ input.n_cols + 2 * (filter.n_cols - 1) + 1
        by omega)
      (by omega) (by omega)) ?_
    refine Finset.sum_congr rfl (fun a ha => Finset.sum_congr rfl
      (fun b hb => ?_))
    simp only [Finset.mem_range] at ha hb
    rw [hterm a b ha hb _ (Nat.le_succ _)]

lemma Mat.Equiv.refl (A : Mat) : Mat.Equiv A A :=
  ⟨rfl, rfl, fun _ _ _ _ => rfl⟩

lemma Mat.Equiv.symm {A B : Mat} (h : Mat.Equiv A B) : Mat.Equiv B A := by
  obtain ⟨h1, h2, h3⟩ := h
  exact ⟨h1.symm, h2.symm,
    fun i hi j hj => (h3 i (by omega) j (by omega)).symm⟩

lemma Mat.Equiv.trans {A B C : Mat} (hAB : Mat.Equiv A B)
    (hBC : Mat.Equiv B C) : Mat.Equiv A C := by
  obtain ⟨h1, h2, h3⟩ := hAB
  obtain ⟨h4, h5, h6⟩ := hBC
  exact ⟨h1.trans h4, h2.trans h5,
    fun i hi j hj => (h3 i hi j hj).trans (h6 i (by omega) j (by omega))⟩

/-- Valid mode refines the spec's direct valid convolution, for either value
of `padLastDim`. -/
lemma validConv_equiv_direct (pad : Bool) (input filter : Mat)
    (hp : 1 ≤ filter.n_rows) (hq : 1 ≤ filter.n_cols)
    (hpm : filter.n_rows ≤ input.n_rows)
    (hqn : filter.n_cols ≤ input.n_cols) :
    Mat.Equiv (validConvolution pad input filter)
      (directValidConv input filter) := by
  have hrows : (validConvolution pad input filter).n_rows
      = (input.n_rows - 1) - (filter.n_rows - 1) + 1 := rfl
  have hcols : (validConvolution pad input filter).n_cols
      = (input.n_cols - 1) - (filter.n_cols - 1) + 1 := rfl
  have hdr : (directValidConv input filter).n_rows
      = input.n_rows - filter.n_rows + 1 := rfl
  have hdc : (directValidConv input filter).n_cols
      = input.n_cols - filter.n_cols + 1 := rfl
  refine ⟨by omega, by omega, ?_⟩
  intro i hi j hj
  have hi' : i < input.n_rows - filter.n_rows + 1 := by omega
  have hj' : j < input.n_cols - filter.n_cols + 1 := by omega
  rw [validConvolution_get pad input filter hp hq hpm hqn i j hi' hj']
  have hget : (directValidConv input filter).get i j
      = ∑ a in Finset.range filter.n_rows, ∑ b in Finset.range filter.n_cols,
          filter.get a b * input.get (i + (filter.n_rows - 1 - a))
            (j + (filter.n_cols - 1 - b)) := by
    show (if i < input.n_rows - filter.n_rows + 1 ∧
          j < input.n_cols - filter.n_cols + 1 then
        ∑ a in Finset.range filter.n_rows, ∑ b in Finset.range filter.n_cols,
          filter.get a b * input.get (i + (filter.n_rows - 1 - a))
            (j + (filter.n_cols - 1 - b))
      else 0) = _
    rw [if_pos ⟨hi', hj'⟩]
  rw [hget]
  refine Finset.sum_congr rfl (fun a ha => Finset.sum_congr rfl
    (fun b hb => ?_))
  simp only [Finset.mem_range] at ha hb
  have e1 : filter.n_rows - 1 + i - a = i + (filter.n_rows - 1 - a) := by
    omega
  have e2 : filter.n_cols - 1 + j - b = j + (filter.n_cols - 1 - b) := by
    omega
  rw [e1, e2, mul_comm]

/-- Full mode refines the spec's direct full convolution, for either value of
`padLastDim`, including filters larger than the input. -/
lemma fullConv_equiv_direct (pad : Bool) (input filter : Mat)
    (hm : 1 ≤ input.n_rows) (hn : 1 ≤ input.n_cols)
    (hp : 1 ≤ filter.n_rows) (hq : 1 ≤ filter.n_cols) :
    Mat.Equiv (fullConvolution pad input filter)
      (directFullConv input filter) := by
  have hrows : (fullConvolution pad input filter).n_rows
      = (2 * (filter.n_rows - 1) + input.n_rows - 1) -
          (filter.n_rows - 1) + 1 := rfl
  have hcols : (fullConvolution pad input filter).n_cols
      = (2 * (filter.n_cols - 1) + input.n_cols - 1) -
          (filter.n_cols - 1) + 1 := rfl
  have hdr : (directFullConv input filter).n_rows
      = input.n_rows + filter.n_rows - 1 := rfl
  have hdc : (directFullConv input filter).n_cols
      = input.n_cols + filter.n_cols - 1 := rfl
  refine ⟨by omega, by omega, ?_⟩
  intro i hi j hj
  have hi' : i < input.n_rows + filter.n_rows - 1 := by omega
  have hj' : j < input.n_cols + filter.n_cols - 1 := by omega
  rw [fullConvolution_get pad input filter hm hn hp hq i j hi' hj']
  have hget : (directFullConv input filter).get i j
      = ∑ a in Finset.range filter.n_rows, ∑ b in Finset.range filter.n_cols,
          filter.get a b *
            (if a ≤ i ∧ b ≤ j then input.get (i - a) (j - b) else 0) := by
    show (if i < input.n_rows + filter.n_rows - 1 ∧
          j < input.n_cols + filter.n_cols - 1 then
        ∑ a in Finset.range filter.n_rows, ∑ b in Finset.range filter.n_cols,
          filter.get a b *
            (if a ≤ i ∧ b ≤ j then input.get (i - a) (j - b) else 0)
      else 0) = _
    rw [if_pos ⟨hi', hj'⟩]
  rw [hget]
  exact Finset.sum_congr rfl (fun a _ => Finset.sum_congr rfl
    (fun b _ => mul_comm _ _))

lemma submatChecked_eq_some (A : Mat) (r1 c1 r2 c2 : Nat)
    (h1 : r1 ≤ r2) (h2 : c1 ≤ c2) (h3 : r2 < A.n_rows) (h4 : c2 < A.n_cols) :
    Mat.submatChecked A r1 c1 r2 c2 = some (A.submat r1 c1 r2 c2) := by
  unfold Mat.submatChecked
  rw [if_pos ⟨h1, h2, h3, h4⟩]

lemma submatSetChecked_eq_some (A B : Mat) (r1 c1 r2 c2 : Nat)
    (h1 : r1 ≤ r2) (h2 : c1 ≤ c2) (h3 : r2 < A.n_rows) (h4 : c2 < A.n_cols)
    (h5 : B.n_rows = r2 - r1 + 1) (h6 : B.n_cols = c2 - c1 + 1) :
    Mat.submatSetChecked A r1 c1 r2 c2 B
      = some (A.submatSet r1 c1 r2 c2 B) := by
  unfold Mat.submatSetChecked
  rw [if_pos ⟨h1, h2, h3, h4, h5, h6⟩]

/-- Under the documented preconditions the valid-mode call's bounds check
passes and the call completes with the extracted output. -/
lemma validRun_ok (pad : Bool) (input filter : Mat)
    (hp : 1 ≤ filter.n_rows) (hq : 1 ≤ filter.n_cols)
    (hpm : filter.n_rows ≤ input.n_rows)
    (hqn : filter.n_cols ≤ input.n_cols) :
    validConvolutionRun pad input filter
      = Except.ok (validConvolution pad input filter) := by
  cases pad with
  | false =>
    show (match Mat.submatChecked
        (fftProductRoundTrip input
          (Mat.resize filter input.n_rows input.n_cols))
        (filter.n_rows - 1) (filter.n_cols - 1)
        (input.n_rows - 1) (input.n_cols - 1) with
      | some o => Except.ok o
      | none => Except.error (fftProductRoundTrip input
          (Mat.resize filter input.n_rows input.n_cols))) = _
    rw [submatChecked_eq_some
      (fftProductRoundTrip input (Mat.resize filter input.n_rows input.n_cols))
      (filter.n_rows - 1) (filter.n_cols - 1)
      (input.n_rows - 1) (input.n_cols - 1) (by omega) (by omega)
      (show input.n_rows - 1 < input.n_rows by omega)
      (show input.n_cols - 1 < input.n_cols by omega)]
    rfl
  | true =>
    show (match Mat.submatChecked
        (fftProductRoundTrip
          (Mat.resize input input.n_rows (input.n_cols + 1))
          (Mat.resize filter input.n_rows (input.n_cols + 1)))
        (filter.n_rows - 1) (filter.n_cols - 1)
        (input.n_rows - 1) (input.n_cols - 1) with
      | some o => Except.ok o
      | none => Except.error (fftProductRoundTrip
          (Mat.resize input input.n_rows (input.n_cols + 1))
          (Mat.resize filter input.n_rows (input.n_cols + 1)))) = _
    rw [submatChecked_eq_some
      (fftProductRoundTrip
        (Mat.resize input input.n_rows (input.n_cols + 1))
        (Mat.resize filter input.n_rows (input.n_cols + 1)))
      (filter.n_rows - 1) (filter.n_cols - 1)
      (input.n_rows - 1) (input.n_cols - 1) (by omega) (by omega)
      (show input.n_rows - 1 < input.n_rows by omega)
      (show input.n_cols - 1 < input.n_cols + 1 by omega)]
    rfl

/-- Under the documented preconditions the full-mode call's placement and
extraction checks pass and the call completes with the extracted output. -/
lemma fullRun_ok (pad : Bool) (input filter output0 : Mat)
    (hm : 1 ≤ input.n_rows) (hn : 1 ≤ input.n_cols)
    (hp : 1 ≤ filter.n_rows) (hq : 1 ≤ filter.n_cols) :
    fullConvolutionRun pad input filter output0
      = Except.ok (fullConvolution pad input filter) := by
  cases pad with
  | false =>
    show (match Mat.submatSetChecked
        (Mat.zeros (input.n_rows + 2 * (filter.n_rows - 1))
          (input.n_cols + 2 * (filter.n_cols - 1)))
        (filter.n_rows - 1) (filter.n_cols - 1)
        (filter.n_rows - 1 + input.n_rows - 1)
        (filter.n_cols - 1 + input.n_cols - 1) input with
      | none => Except.error output0
      | some inputPadded =>
        match Mat.submatChecked
            (fftProductRoundTrip inputPadded
              (Mat.resize filter (input.n_rows + 2 * (filter.n_rows - 1))
                (input.n_cols + 2 * (filter.n_cols - 1))))
            (filter.n_rows - 1) (filter.n_cols - 1)
            (2 * (filter.n_rows - 1) + input.n_rows - 1)
            (2 * (filter.n_cols - 1) + input.n_cols - 1) with
        | some o => Except.ok o
        | none => Except.error (fftProductRoundTrip inputPadded
            (Mat.resize filter (input.n_rows + 2 * (filter.n_rows - 1))
              (input.n_cols + 2 * (filter.n_cols - 1))))) = _
    rw [submatSetChecked_eq_some
      (Mat.zeros (input.n_rows + 2 * (filter.n_rows - 1))
        (input.n_cols + 2 * (filter.n_cols - 1))) input
      (filter.n_rows - 1) (filter.n_cols - 1)
      (filter.n_rows - 1 + input.n_rows - 1)
      (filter.n_cols - 1 + input.n_cols - 1)
      (by omega) (by omega)
      (show filter.n_rows - 1 + input.n_rows - 1
          < input.n_rows + 2 * (filter.n_rows - 1) by omega)
      (show filter.n_cols - 1 + input.n_cols - 1
          < input.n_cols + 2 * (filter.n_cols - 1) by omega)
      (by omega) (by omega)]
    show (match Mat.submatChecked
        (fftProductRoundTrip
          ((Mat.zeros (input.n_rows + 2 * (filter.n_rows - 1))
            (input.n_cols + 2 * (filter.n_cols - 1))).submatSet
            (filter.n_rows - 1) (filter.n_cols - 1)
            (filter.n_rows - 1 + input.n_rows - 1)
            (filter.n_cols - 1 + input.n_cols - 1) input)
          (Mat.resize filter (input.n_rows + 2 * (filter.n_rows - 1))
            (input.n_cols + 2 * (filter.n_cols - 1))))
        (filter.n_rows - 1) (filter.n_cols - 1)
        (2 * (filter.n_rows - 1) + input.n_rows - 1)
        (2 * (filter.n_cols - 1) + input.n_cols - 1) with
      | some o => Except.ok o
      | none => Except.error (fftProductRoundTrip
          ((Mat.zeros (input.n_rows + 2 * (filter.n_rows - 1))
            (input.n_cols + 2 * (filter.n_cols - 1))).submatSet
            (filter.n_rows - 1) (filter.n_cols - 1)
            (filter.n_rows - 1 + input.n_rows - 1)
            (filter.n_cols - 1 + input.n_cols - 1) input)
          (Mat.resize filter (input.n_rows + 2 * (filter.n_rows - 1))
            (input.n_cols + 2 * (filter.n_cols - 1))))) = _
    rw [submatChecked_eq_some
      (fftProductRoundTrip
        ((Mat.zeros (input.n_rows + 2 * (filter.n_rows - 1))
          (input.n_cols + 2 * (filter.n_cols - 1))).submatSet
          (filter.n_rows - 1) (filter.n_cols - 1)
          (filter.n_rows - 1 + input.n_rows - 1)
          (filter.n_cols - 1 + input.n_cols - 1) input)
        (Mat.resize filter (input.n_rows + 2 * (filter.n_rows - 1))
          (input.n_cols + 2 * (filter.n_cols - 1))))
      (filter.n_rows - 1) (filter.n_cols - 1)
      (2 * (filter.n_rows - 1) + input.n_rows - 1)
      (2 * (filter.n_cols - 1) + input.n_cols - 1)
      (by omega) (by omega)
      (show 2 * (filter.n_rows - 1) + input.n_rows - 1
          < input.n_rows + 2 * (filter.n_rows - 1) by omega)
      (show 2 * (filter.n_cols - 1) + input.n_cols - 1
          < input.n_cols + 2 * (filter.n_cols - 1) by omega)]
    rfl
  | true =>
    show (match Mat.submatSetChecked
        (Mat.zeros (input.n_rows + 2 * (filter.n_rows - 1))
          (input.n_cols + 2 * (filter.n_cols - 1) + 1))
        (filter.n_rows - 1) (filter.n_cols - 1)
        (filter.n_rows - 1 + input.n_rows - 1)
        (filter.n_cols - 1 + input.n_cols - 1) input with
      | none => Except.error output0
      | some inputPadded =>
        match Mat.submatChecked
            (fftProductRoundTrip inputPadded
              (Mat.resize filter (input.n_rows + 2 * (filter.n_rows - 1))
                (input.n_cols + 2 * (filter.n_cols - 1) + 1)))
            (filter.n_rows - 1) (filter.n_cols - 1)
            (2 * (filter.n_rows - 1) + input.n_rows - 1)
            (2 * (filter.n_cols - 1) + input.n_cols - 1) with
        | some o => Except.ok o
        | none => Except.error (fftProductRoundTrip inputPadded
            (Mat.resize filter (input.n_rows + 2 * (filter.n_rows - 1))
              (input.n_cols + 2 * (filter.n_cols - 1) + 1)))) = _
    rw [submatSetChecked_eq_some
      (Mat.zeros (input.n_rows + 2 * (filter.n_rows - 1))
        (input.n_cols + 2 * (filter.n_cols - 1) + 1)) input
      (filter.n_rows - 1) (filter.n_cols - 1)
      (filter.n_rows - 1 + input.n_rows - 1)
      (filter.n_cols - 1 + input.n_cols - 1)
      (by omega) (by omega)
      (show filter.n_rows - 1 + input.n_rows - 1
          < input.n_rows + 2 * (filter.n_rows - 1) by omega)
      (show filter.n_cols - 1 + input.n_cols - 1
          < input.n_cols + 2 * (filter.n_cols - 1) + 1 by omega)
      (by omega) (by omega)]
    show (match Mat.submatChecked
        (fftProductRoundTrip
          ((Mat.zeros (input.n_rows + 2 * (filter.n_rows - 1))
            (input.n_cols + 2 * (filter.n_cols - 1) + 1)).submatSet
            (filter.n_rows - 1) (filter.n_cols - 1)
            (filter.n_rows - 1 + input.n_rows - 1)
            (filter.n_cols - 1 + input.n_cols - 1) input)
          (Mat.resize filter (input.n_rows + 2 * (filter.n_rows - 1))
            (input.n_cols + 2 * (filter.n_cols - 1) + 1)))
        (filter.n_rows - 1) (filter.n_cols - 1)
        (2 * (filter.n_rows - 1) + input.n_rows - 1)
        (2 * (filter.n_cols - 1) + input.n_cols - 1) with
      | some o => Except.ok o
      | none => Except.error (fftProductRoundTrip
          ((Mat.zeros (input.n_rows + 2 * (filter.n_rows - 1))
            (input.n_cols + 2 * (filter.n_cols - 1) + 1)).submatSet
            (filter.n_rows - 1) (filter.n_cols - 1)
            (filter.n_rows - 1 + input.n_rows - 1)
            (filter.n_cols - 1 + input.n_cols - 1) input)
          (Mat.resize filter (input.n_rows + 2 * (filter.n_rows - 1))
            (input.n_cols + 2 * (filter.n_cols - 1) + 1)))) = _
    rw [submatChecked_eq_some
      (fftProductRoundTrip
        ((Mat.zeros (input.n_rows + 2 * (filter.n_rows - 1))
          (input.n_cols + 2 * (filter.n_cols - 1) + 1)).submatSet
          (filter.n_rows - 1) (filter.n_cols - 1)
          (filter.n_rows - 1 + input.n_rows - 1)
          (filter.n_cols - 1 + input.n_cols - 1) input)
        (Mat.resize filter (input.n_rows + 2 * (filter.n_rows - 1))
          (input.n_cols + 2 * (filter.n_cols - 1) + 1)))
      (filter.n_rows - 1) (filter.n_cols - 1)
      (2 * (filter.n_rows - 1) + input.n_rows - 1)
      (2 * (filter.n_cols - 1) + input.n_cols - 1)
      (by omega) (by omega)
      (show 2 * (filter.n_rows - 1) + input.n_rows - 1
          < input.n_rows + 2 * (filter.n_rows - 1) by omega)
      (show 2 * (filter.n_cols - 1) + input.n_cols - 1
          < input.n_cols + 2 * (filter.n_cols - 1) + 1 by omega)]
    rfl

/-- The direct valid convolution with the 1×1 unit filter is the input. -/
lemma directValid_unitFilter (input : Mat) (hm : 1 ≤ input.n_rows)
    (hn : 1 ≤ input.n_cols) :
    Mat.Equiv (directValidConv input unitFilter) input := by
  refine ⟨show input.n_rows - 1 + 1 = input.n_rows by omega,
    show input.n_cols - 1 + 1 = input.n_cols by omega, ?_⟩
  intro i hi j hj
  have hi' : i < input.n_rows := by
    have h0 : i < input.n_rows - 1 + 1 := hi
    omega
  have hj' : j < input.n_cols := by
    have h0 : j < input.n_cols - 1 + 1 := hj
    omega
  show (if i < input.n_rows - 1 + 1 ∧ j < input.n_cols - 1 + 1 then
      ∑ a in Finset.range 1, ∑ b in Finset.range 1,
        unitFilter.get a b * input.get (i + (1 - 1 - a)) (j + (1 - 1 - b))
    else 0) = input.get i j
  rw [if_pos ⟨hi, hj⟩, Finset.sum_range_one, Finset.sum_range_one]
  simp [unitFilter, Mat.get, hi', hj']

/-- The direct full convolution with the 1×1 unit filter is the input. -/
lemma directFull_unitFilter (input : Mat) :
    Mat.Equiv (directFullConv input unitFilter) input := by
  refine ⟨show input.n_rows + 1 - 1 = input.n_rows by omega,
    show input.n_cols + 1 - 1 = input.n_cols by omega, ?_⟩
  intro i hi j hj
  show (if i < input.n_rows + 1 - 1 ∧ j < input.n_cols + 1 - 1 then
      ∑ a in Finset.range 1, ∑ b in Finset.range 1,
        unitFilter.get a b *
          (if a ≤ i ∧ b ≤ j then input.get (i - a) (j - b) else 0)
    else 0) = input.get i j
  rw [if_pos ⟨hi, hj⟩, Finset.sum_range_one, Finset.sum_range_one]
  simp [unitFilter, Mat.get]

/-- Equivalent matrices agree under `get` at every index, in range or not. -/
lemma Mat.Equiv.get_eq {A B : Mat} (h : Mat.Equiv A B) (i j : Nat) :
    A.get i j = B.get i j := by
  obtain ⟨h1, h2, h3⟩ := h
  by_cases hin : i < A.n_rows ∧ j < A.n_cols
  · exact h3 i hin.1 j hin.2
  · have hA : A.get i j = 0 := by
      unfold Mat.get
      rw [if_neg hin]
    have hB : B.get i j = 0 := by
      unfold Mat.get
      rw [if_neg (by omega)]
    rw [hA, hB]

lemma Mat.Equiv.get_funext {A B : Mat} (h : Mat.Equiv A B) :
    A.get = B.get :=
  funext (fun i => funext (fun j => h.get_eq i j))

lemma fftProductRoundTrip_congr {A A2 B B2 : Mat}
    (hr : A.n_rows = A2.n_rows) (hc : A.n_cols = A2.n_cols)
    (hg : A.get = A2.get) (hgB : B.get = B2.get) :
    fftProductRoundTrip A B = fftProductRoundTrip A2 B2 := by
  unfold fftProductRoundTrip
  rw [hr, hc, hg, hgB]

lemma resize_congr {A A2 : Mat} (r c : Nat) (hg : A.get = A2.get) :
    Mat.resize A r c = Mat.resize A2 r c := by
  unfold Mat.resize
  rw [hg]

lemma submatSet_congr {A B B2 : Mat} (r1 c1 r2 c2 : Nat)
    (hg : B.get = B2.get) :
    A.submatSet r1 c1 r2 c2 B = A.submatSet r1 c1 r2 c2 B2 := by
  unfold Mat.submatSet
  rw [hg]

/-- Direct valid convolution of the concrete all-ones scenario. -/
lemma directValid_ones :
    Mat.Equiv (directValidConv onesInput3 onesFilter2) validOnesExpected := by
  refine ⟨rfl, rfl, ?_⟩
  intro i hi j hj
  have hi2 : i < 2 := hi
  have hj2 : j < 2 := hj
  interval_cases i <;> interval_cases j <;>
    norm_num [directValidConv, Mat.get, onesInput3, onesFilter2,
      validOnesExpected, Finset.sum_range_succ]

/-- Direct full convolution of the concrete all-ones scenario. -/
lemma directFull_ones :
    Mat.Equiv (directFullConv onesInput3 onesFilter2) fullOnesExpected := by
  refine ⟨rfl, rfl, ?_⟩
  intro i hi j hj
  have hi2 : i < 4 := hi
  have hj2 : j < 4 := hj
  interval_cases i <;> interval_cases j <;>
    norm_num [directFullConv, Mat.get, onesInput3, onesFilter2,
      fullOnesExpected, Finset.sum_range_succ]

/-- Claim C1: for every non-empty input and filter (with the filter's
dimensions at most the input's in Valid mode), the output of `Convolution`
equals the direct spatial-domain linear convolution restricted to the
requested window — the fully-overlapping window in Valid mode, the
any-overlap window in Full mode.  In this exact-arithmetic embedding of the
transform round-trip the spec's floating-point tolerance sharpens to exact
equality, for either value of `padLastDim`. -/
theorem fftConvolution_matches_direct (pad : Bool) (input filter : Mat)
    (hm : 1 ≤ input.n_rows) (hn : 1 ≤ input.n_cols)
    (hp : 1 ≤ filter.n_rows) (hq : 1 ≤ filter.n_cols) :
    (filter.n_rows ≤ input.n_rows → filter.n_cols ≤ input.n_cols →
      Mat.Equiv (validConvolution pad input filter)
        (directValidConv input filter))
    ∧ Mat.Equiv (fullConvolution pad input filter)
        (directFullConv input filter) :=
  ⟨fun hpm hqn => validConv_equiv_direct pad input filter hp hq hpm hqn,
   fullConv_equiv_direct pad input filter hm hn hp hq⟩

/-- Witness for C1 at the concrete all-ones input and filter. -/
theorem fftConvolution_matches_direct_witness :
    (onesFilter2.n_rows ≤ onesInput3.n_rows →
      onesFilter2.n_cols ≤ onesInput3.n_cols →
      Mat.Equiv (validConvolution false onesInput3 onesFilter2)
        (directValidConv onesInput3 onesFilter2))
    ∧ Mat.Equiv (fullConvolution false onesInput3 onesFilter2)
        (directFullConv onesInput3 onesFilter2) :=
  fftConvolution_matches_direct false onesInput3 onesFilter2
    (by decide) (by decide) (by decide) (by decide)

/-- Claim C2: Valid-mode output shape is exactly
`(m - p + 1, n - q + 1)`, independent of the `padLastDim` flag. -/
theorem validConvolution_output_shape (pad : Bool) (input filter : Mat)
    (hp : 1 ≤ filter.n_rows) (hq : 1 ≤ filter.n_cols)
    (hpm : filter.n_rows ≤ input.n_rows)
    (hqn : filter.n_cols ≤ input.n_cols) :
    (validConvolution pad input filter).n_rows
        = input.n_rows - filter.n_rows + 1
    ∧ (validConvolution pad input filter).n_cols
        = input.n_cols - filter.n_cols + 1 := by
  have h1 : (validConvolution pad input filter).n_rows
      = (input.n_rows - 1) - (filter.n_rows - 1) + 1 := rfl
  have h2 : (validConvolution pad input filter).n_cols
      = (input.n_cols - 1) - (filter.n_cols - 1) + 1 := rfl
  exact ⟨by omega, by omega⟩

/-- Witness for C2 at the concrete sample input and filter. -/
theorem validConvolution_output_shape_witness :
    (validConvolution true sampleInput sampleFilter).n_rows
        = sampleInput.n_rows - sampleFilter.n_rows + 1
    ∧ (validConvolution true sampleInput sampleFilter).n_cols
        = sampleInput.n_cols - sampleFilter.n_cols + 1 :=
  validConvolution_output_shape true sampleInput sampleFilter
    (by decide) (by decide) (by decide) (by decide)

/-- Claim C3: Full-mode output shape is exactly
`(m + p - 1, n + q - 1)`, independent of the `padLastDim` flag. -/
theorem fullConvolution_output_shape (pad : Bool) (input filter : Mat)
    (hm : 1 ≤ input.n_rows) (hn : 1 ≤ input.n_cols)
    (hp : 1 ≤ filter.n_rows) (hq : 1 ≤ filter.n_cols) :
    (fullConvolution pad input filter).n_rows
        = input.n_rows + filter.n_rows - 1
    ∧ (fullConvolution pad input filter).n_cols
        = input.n_cols + filter.n_cols - 1 := by
  have h1 : (fullConvolution pad input filter).n_rows
      = (2 * (filter.n_rows - 1) + input.n_rows - 1) -
          (filter.n_rows - 1) + 1 := rfl
  have h2 : (fullConvolution pad input filter).n_cols
      = (2 * (filter.n_cols - 1) + input.n_cols - 1) -
          (filter.n_cols - 1) + 1 := rfl
  exact ⟨by omega, by omega⟩

/-- Witness for C3 at the concrete sample input and filter. -/
theorem fullConvolution_output_shape_witness :
    (fullConvolution true sampleInput sampleFilter).n_rows
        = sampleInput.n_rows + sampleFilter.n_rows - 1
    ∧ (fullConvolution true sampleInput sampleFilter).n_cols
        = sampleInput.n_cols + sampleFilter.n_cols - 1 :=
  fullConvolution_output_shape true sampleInput sampleFilter
    (by decide) (by decide) (by decide) (by decide)

/-- Claim C4: the engine instantiated with `padLastDim = true` produces the
same output values and shape as with `padLastDim = false`, in both border
modes (the flag only changes the internal working-buffer width). -/
theorem padLastDim_invariance (input filter : Mat)
    (hm : 1 ≤ input.n_rows) (hn : 1 ≤ input.n_cols)
    (hp : 1 ≤ filter.n_rows) (hq : 1 ≤ filter.n_cols) :
    (filter.n_rows ≤ input.n_rows → filter.n_cols ≤ input.n_cols →
      Mat.Equiv (validConvolution true input filter)
        (validConvolution false input filter))
    ∧ Mat.Equiv (fullConvolution true input filter)
        (fullConvolution false input filter) :=
  ⟨fun hpm hqn =>
    (validConv_equiv_direct true input filter hp hq hpm hqn).trans
      (validConv_equiv_direct false input filter hp hq hpm hqn).symm,
   (fullConv_equiv_direct true input filter hm hn hp hq).trans
      (fullConv_equiv_direct false input filter hm hn hp hq).symm⟩

/-- Witness for C4 at the concrete sample input and filter. -/
theorem padLastDim_invariance_witness :
    (sampleFilter.n_rows ≤ sampleInput.n_rows →
      sampleFilter.n_cols ≤ sampleInput.n_cols →
      Mat.Equiv (validConvolution true sampleInput sampleFilter)
        (validConvolution false sampleInput sampleFilter))
    ∧ Mat.Equiv (fullConvolution true sampleInput sampleFilter)
        (fullConvolution false sampleInput sampleFilter) :=
  padLastDim_invariance sampleInput sampleFilter
    (by decide) (by decide) (by decide) (by decide)

/-- Counterexample to claim C5 as stated: a valid-mode call whose filter is
taller than the input (out of contract) fails at the extraction bounds check
only AFTER the working-size FFT result has been assigned to `output` (line 62
precedes line 67), so the failed call leaves `output` holding the un-extracted
working-size buffer — here of the 1×2 working shape — rather than failing
before producing output. -/
theorem validRun_leftover_intermediate_counterexample :
    ∃ w, validConvolutionRun false shortInput oversizeFilter
        = Except.error w
      ∧ w.n_rows = shortInput.n_rows ∧ w.n_cols = shortInput.n_cols :=
  ⟨_, rfl, rfl, rfl⟩

/-- Claim C5 (amended): for every call satisfying the documented
preconditions (non-empty operands; in Valid mode the filter's dimensions at
most the input's), no check fails and the call completes with `output`
holding the complete, correctly extracted convolution result; a
contract-violating Valid-mode call can instead fail at the extraction step
after `output` was already overwritten with the working-size buffer. -/
theorem convolution_complete_result (pad : Bool)
    (input filter output0 : Mat)
    (hm : 1 ≤ input.n_rows) (hn : 1 ≤ input.n_cols)
    (hp : 1 ≤ filter.n_rows) (hq : 1 ≤ filter.n_cols) :
    (filter.n_rows ≤ input.n_rows → filter.n_cols ≤ input.n_cols →
      validConvolutionRun pad input filter
        = Except.ok (validConvolution pad input filter))
    ∧ fullConvolutionRun pad input filter output0
        = Except.ok (fullConvolution pad input filter) :=
  ⟨fun hpm hqn => validRun_ok pad input filter hp hq hpm hqn,
   fullRun_ok pad input filter output0 hm hn hp hq⟩

/-- Witness for the amended C5 at the concrete sample input and filter. -/
theorem convolution_complete_result_witness :
    (sampleFilter.n_rows ≤ sampleInput.n_rows →
      sampleFilter.n_cols ≤ sampleInput.n_cols →
      validConvolutionRun false sampleInput sampleFilter
        = Except.ok (validConvolution false sampleInput sampleFilter))
    ∧ fullConvolutionRun false sampleInput sampleFilter sampleInput
        = Except.ok (fullConvolution false sampleInput sampleFilter) :=
  convolution_complete_result false sampleInput sampleFilter sampleInput
    (by decide) (by decide) (by decide) (by decide)

/-- Claim C6: convolving any non-empty matrix with the 1×1 filter holding 1
reproduces the matrix exactly, in Valid mode and in Full mode, for either
value of `padLastDim`; in this case the Full-mode output equals the
Valid-mode output. -/
theorem unit_filter_identity (pad : Bool) (input : Mat)
    (hm : 1 ≤ input.n_rows) (hn : 1 ≤ input.n_cols) :
    Mat.Equiv (validConvolution pad input unitFilter) input
    ∧ Mat.Equiv (fullConvolution pad input unitFilter) input
    ∧ Mat.Equiv (fullConvolution pad input unitFilter)
        (validConvolution pad input unitFilter) := by
  have h1 : Mat.Equiv (validConvolution pad input unitFilter) input :=
    (validConv_equiv_direct pad input unitFilter (le_refl 1) (le_refl 1)
      hm hn).trans (directValid_unitFilter input hm hn)
  have h2 : Mat.Equiv (fullConvolution pad input unitFilter) input :=
    (fullConv_equiv_direct pad input unitFilter hm hn (le_refl 1)
      (le_refl 1)).trans (directFull_unitFilter input)
  exact ⟨h1, h2, h2.trans h1.symm⟩

/-- Witness for C6 at the concrete sample input. -/
theorem unit_filter_identity_witness :
    Mat.Equiv (validConvolution true sampleInput unitFilter) sampleInput
    ∧ Mat.Equiv (fullConvolution true sampleInput unitFilter) sampleInput
    ∧ Mat.Equiv (fullConvolution true sampleInput unitFilter)
        (validConvolution true sampleInput unitFilter) :=
  unit_filter_identity true sampleInput (by decide) (by decide)

/-- Claim C7: for the 3×3 all-ones input and 2×2 all-ones filter, the
Valid-mode output is the 2×2 matrix of 4s and the Full-mode output is the
4×4 matrix with corners 1, edges 2 and center 4, for either value of
`padLastDim`. -/
theorem ones_concrete_scenario :
    Mat.Equiv (validConvolution false onesInput3 onesFilter2)
      validOnesExpected
    ∧ Mat.Equiv (validConvolution true onesInput3 onesFilter2)
      validOnesExpected
    ∧ Mat.Equiv (fullConvolution false onesInput3 onesFilter2)
      fullOnesExpected
    ∧ Mat.Equiv (fullConvolution true onesInput3 onesFilter2)
      fullOnesExpected :=
  ⟨(validConv_equiv_direct false onesInput3 onesFilter2 (by decide)
      (by decide) (by decide) (by decide)).trans directValid_ones,
   (validConv_equiv_direct true onesInput3 onesFilter2 (by decide)
      (by decide) (by decide) (by decide)).trans directValid_ones,
   (fullConv_equiv_direct false onesInput3 onesFilter2 (by decide)
      (by decide) (by decide) (by decide)).trans directFull_ones,
   (fullConv_equiv_direct true onesInput3 onesFilter2 (by decide)
      (by decide) (by decide) (by decide)).trans directFull_ones⟩

/-- Claim C8: in Valid mode a filter whose dimensions equal the input's is
accepted (the bounds check passes and the call completes) and produces a 1×1
output holding the single fully-overlapping convolution value. -/
theorem equal_size_filter_accepted (pad : Bool) (input filter : Mat)
    (hp : 1 ≤ filter.n_rows) (hq : 1 ≤ filter.n_cols)
    (hpm : filter.n_rows = input.n_rows)
    (hqn : filter.n_cols = input.n_cols) :
    (validConvolution pad input filter).n_rows = 1
    ∧ (validConvolution pad input filter).n_cols = 1
    ∧ validConvolutionRun pad input filter
        = Except.ok (validConvolution pad input filter)
    ∧ (validConvolution pad input filter).get 0 0
        = ∑ a in Finset.range filter.n_rows,
            ∑ b in Finset.range filter.n_cols,
              filter.get a b *
                input.get (filter.n_rows - 1 - a) (filter.n_cols - 1 - b) := by
  have h1 : (validConvolution pad input filter).n_rows
      = (input.n_rows - 1) - (filter.n_rows - 1) + 1 := rfl
  have h2 : (validConvolution pad input filter).n_cols
      = (input.n_cols - 1) - (filter.n_cols - 1) + 1 := rfl
  refine ⟨by omega, by omega,
    validRun_ok pad input filter hp hq (by omega) (by omega), ?_⟩
  have h3 := validConvolution_get pad input filter hp hq (by omega) (by omega)
    0 0 (by omega) (by omega)
  rw [h3]
  refine Finset.sum_congr rfl (fun a ha => Finset.sum_congr rfl
    (fun b hb => ?_))
  simp only [Finset.mem_range] at ha hb
  have e1 : filter.n_rows - 1 + 0 - a = filter.n_rows - 1 - a := by omega
  have e2 : filter.n_cols - 1 + 0 - b = filter.n_cols - 1 - b := by omega
  rw [e1, e2, mul_comm]

/-- Witness for C8 at a concrete 2×2 input with a 2×2 filter. -/
theorem equal_size_filter_accepted_witness :
    (validConvolution false validOnesExpected sampleFilter).n_rows = 1
    ∧ (validConvolution false validOnesExpected sampleFilter).n_cols = 1
    ∧ validConvolutionRun false validOnesExpected sampleFilter
        = Except.ok (validConvolution false validOnesExpected sampleFilter)
    ∧ (validConvolution false validOnesExpected sampleFilter).get 0 0
        = ∑ a in Finset.range sampleFilter.n_rows,
            ∑ b in Finset.range sampleFilter.n_cols,
              sampleFilter.get a b *
                validOnesExpected.get (sampleFilter.n_rows - 1 - a)
                  (sampleFilter.n_cols - 1 - b) :=
  equal_size_filter_accepted false validOnesExpected sampleFilter
    (by decide) (by decide) (by decide) (by decide)

/-- Claim C9: the call is a pure function of the logical contents of `input`
and `filter` together with the compile-time mode and `padLastDim`
configuration: replacing the operands by observationally equal matrices
yields the very same output, in both modes.  (In the embedding the operands
are read-only by construction, matching the `const` reference parameters and
the local working copies of the source.) -/
theorem convolution_depends_only_on_contents (pad : Bool)
    (input input2 filter filter2 : Mat)
    (hin : Mat.Equiv input input2) (hfl : Mat.Equiv filter filter2) :
    validConvolution pad input filter = validConvolution pad input2 filter2
    ∧ fullConvolution pad input filter
        = fullConvolution pad input2 filter2 := by
  have hr : input.n_rows = input2.n_rows := hin.1
  have hc : input.n_cols = input2.n_cols := hin.2.1
  have hg : input.get = input2.get := hin.get_funext
  have hfr : filter.n_rows = filter2.n_rows := hfl.1
  have hfc : filter.n_cols = filter2.n_cols := hfl.2.1
  have hfg : filter.get = filter2.get := hfl.get_funext
  constructor
  · cases pad with
    | false =>
      show Mat.submat
          (fftProductRoundTrip input
            (Mat.resize filter input.n_rows input.n_cols))
          (filter.n_rows - 1) (filter.n_cols - 1)
          (input.n_rows - 1) (input.n_cols - 1)
        = Mat.submat
          (fftProductRoundTrip input2
            (Mat.resize filter2 input2.n_rows input2.n_cols))
          (filter2.n_rows - 1) (filter2.n_cols - 1)
          (input2.n_rows - 1) (input2.n_cols - 1)
      have e1 : fftProductRoundTrip input
            (Mat.resize filter input.n_rows input.n_cols)
          = fftProductRoundTrip input2
            (Mat.resize filter2 input2.n_rows input2.n_cols) := by
        refine fftProductRoundTrip_congr hr hc hg ?_
        rw [← hr, ← hc, resize_congr input.n_rows input.n_cols hfg]
      rw [e1, hfr, hfc, hr, hc]
    | true =>
      show Mat.submat
          (fftProductRoundTrip
            (Mat.resize input input.n_rows (input.n_cols + 1))
            (Mat.resize filter input.n_rows (input.n_cols + 1)))
          (filter.n_rows - 1) (filter.n_cols - 1)
          (input.n_rows - 1) (input.n_cols - 1)
        = Mat.submat
          (fftProductRoundTrip
            (Mat.resize input2 input2.n_rows (input2.n_cols + 1))
            (Mat.resize filter2 input2.n_rows (input2.n_cols + 1)))
          (filter2.n_rows - 1) (filter2.n_cols - 1)
          (input2.n_rows - 1) (input2.n_cols - 1)
      have eP : Mat.resize input input.n_rows (input.n_cols + 1)
          = Mat.resize input2 input2.n_rows (input2.n_cols + 1) := by
        unfold Mat.resize
        rw [hr, hc, hg]
      have eF : Mat.resize filter input.n_rows (input.n_cols + 1)
          = Mat.resize filter2 input2.n_rows (input2.n_cols + 1) := by
        unfold Mat.resize
        rw [hr, hc, hfg]
      rw [eP, eF, hfr, hfc, hr, hc]
  · cases pad with
    | false =>
      show Mat.submat
          (fftProductRoundTrip
            ((Mat.zeros (input.n_rows + 2 * (filter.n_rows - 1))
              (input.n_cols + 2 * (filter.n_cols - 1))).submatSet
              (filter.n_rows - 1) (filter.n_cols - 1)
              (filter.n_rows - 1 + input.n_rows - 1)
              (filter.n_cols - 1 + input.n_cols - 1) input)
            (Mat.resize filter (input.n_rows + 2 * (filter.n_rows - 1))
              (input.n_cols + 2 * (filter.n_cols - 1))))
          (filter.n_rows - 1) (filter.n_cols - 1)
          (2 * (filter.n_rows - 1) + input.n_rows - 1)
          (2 * (filter.n_cols - 1) + input.n_cols - 1)
        = Mat.submat
          (fftProductRoundTrip
            ((Mat.zeros (input2.n_rows + 2 * (filter2.n_rows - 1))
              (input2.n_cols + 2 * (filter2.n_cols - 1))).submatSet
              (filter2.n_rows - 1) (filter2.n_cols - 1)
              (filter2.n_rows - 1 + input2.n_rows - 1)
              (filter2.n_cols - 1 + input2.n_cols - 1) input2)
            (Mat.resize filter2 (input2.n_rows + 2 * (filter2.n_rows - 1))
              (input2.n_cols + 2 * (filter2.n_cols - 1))))
          (filter2.n_rows - 1) (filter2.n_cols - 1)
          (2 * (filter2.n_rows - 1) + input2.n_rows - 1)
          (2 * (filter2.n_cols - 1) + input2.n_cols - 1)
      rw [submatSet_congr (filter.n_rows - 1) (filter.n_cols - 1)
          (filter.n_rows - 1 + input.n_rows - 1)
          (filter.n_cols - 1 + input.n_cols - 1) hg,
        resize_congr (input.n_rows + 2 * (filter.n_rows - 1))
          (input.n_cols + 2 * (filter.n_cols - 1)) hfg,
        hr, hc, hfr, hfc]
    | true =>
      show Mat.submat
          (fftProductRoundTrip
            ((Mat.zeros (input.n_rows + 2 * (filter.n_rows - 1))
              (input.n_cols + 2 * (filter.n_cols - 1) + 1)).submatSet
              (filter.n_rows - 1) (filter.n_cols - 1)
              (filter.n_rows - 1 + input.n_rows - 1)
              (filter.n_cols - 1 + input.n_cols - 1) input)
            (Mat.resize filter (input.n_rows + 2 * (filter.n_rows - 1))
              (input.n_cols + 2 * (filter.n_cols - 1) + 1)))
          (filter.n_rows - 1) (filter.n_cols - 1)
          (2 * (filter.n_rows - 1) + input.n_rows - 1)
          (2 * (filter.n_cols - 1) + input.n_cols - 1)
        = Mat.submat
          (fftProductRoundTrip
            ((Mat.zeros (input2.n_rows + 2 * (filter2.n_rows - 1))
              (input2.n_cols + 2 * (filter2.n_cols - 1) + 1)).submatSet
              (filter2.n_rows - 1) (filter2.n_cols - 1)
              (filter2.n_rows - 1 + input2.n_rows - 1)
              (filter2.n_cols - 1 + input2.n_cols - 1) input2)
            (Mat.resize filter2 (input2.n_rows + 2 * (filter2.n_rows - 1))
              (input2.n_cols + 2 * (filter2.n_cols - 1) + 1)))
          (filter2.n_rows - 1) (filter2.n_cols - 1)
          (2 * (filter2.n_rows - 1) + input2.n_rows - 1)
          (2 * (filter2.n_cols - 1) + input2.n_cols - 1)
      rw [submatSet_congr (filter.n_rows - 1) (filter.n_cols - 1)
          (filter.n_rows - 1 + input.n_rows - 1)
          (filter.n_cols - 1 + input.n_cols - 1) hg,
        resize_congr (input.n_rows + 2 * (filter.n_rows - 1))
          (input.n_cols + 2 * (filter.n_cols - 1) + 1) hfg,
        hr, hc, hfr, hfc]

/-- Witness for C9 at two observationally equal representations of the same
concrete matrices. -/
theorem convolution_depends_only_on_contents_witness :
    validConvolution true sampleInput altSampleFilter
      = validConvolution true sampleInput sampleFilter
    ∧ fullConvolution true sampleInput altSampleFilter
      = fullConvolution true sampleInput sampleFilter :=
  convolution_depends_only_on_contents true sampleInput sampleInput
    altSampleFilter sampleFilter
    (Mat.Equiv.refl sampleInput)
    (by
      refine ⟨rfl, rfl, ?_⟩
      intro i hi j hj
      have hi2 : i < 2 := hi
      have hj2 : j < 2 := hj
      simp [altSampleFilter, sampleFilter, Mat.get, hi2, hj2])

/-- Claim C10: under the preconditions every index computation stays in
bounds: the size_t subtractions `filter.n_rows - 1` and `filter.n_cols - 1`
do not underflow (their values as integers equal the natural-number values),
and every bounds check in both modes passes, so the checked runs succeed —
the Full-mode placement window fits in the zero working buffer and both
extraction windows lie inside the working-size result, Full mode for every
non-empty filter including ones larger than the input. -/
theorem convolution_index_safety (pad : Bool) (input filter output0 : Mat)
    (hm : 1 ≤ input.n_rows) (hn : 1 ≤ input.n_cols)
    (hp : 1 ≤ filter.n_rows) (hq : 1 ≤ filter.n_cols) :
    ((filter.n_rows : Int) - 1 = ((filter.n_rows - 1 : Nat) : Int)
      ∧ (filter.n_cols : Int) - 1 = ((filter.n_cols - 1 : Nat) : Int))
    ∧ (filter.n_rows ≤ input.n_rows → filter.n_cols ≤ input.n_cols →
        ∃ o, validConvolutionRun pad input filter = Except.ok o)
    ∧ (∃ o, fullConvolutionRun pad input filter output0 = Except.ok o) :=
  ⟨⟨by omega, by omega⟩,
   fun hpm hqn => ⟨_, validRun_ok pad input filter hp hq hpm hqn⟩,
   ⟨_, fullRun_ok pad input filter output0 hm hn hp hq⟩⟩

/-- Witness for C10 at the concrete sample input and filter. -/
theorem convolution_index_safety_witness :
    (((sampleFilter.n_rows : Int) - 1
        = ((sampleFilter.n_rows - 1 : Nat) : Int))
      ∧ (sampleFilter.n_cols : Int) - 1
        = ((sampleFilter.n_cols - 1 : Nat) : Int))
    ∧ (sampleFilter.n_rows ≤ sampleInput.n_rows →
        sampleFilter.n_cols ≤ sampleInput.n_cols →
        ∃ o, validConvolutionRun false sampleInput sampleFilter
          = Except.ok o)
    ∧ (∃ o, fullConvolutionRun false sampleInput sampleFilter sampleInput
        = Except.ok o) :=
  convolution_index_safety false sampleInput sampleFilter sampleInput
    (by decide) (by decide) (by decide) (by decide)
